import Mathlib

/-!
Verification of the editer crate: mutation-safe iteration over an
index-addressable sequence.

The embedding models the sequence contract (`List` trait) on Lean lists,
the single-use cursor (`Slot`) with its stride cell, and the two iteration
engines `edit` and `try_edit` as well-founded recursion on
`length - index`, exactly following the source loops.

A callback invocation is modelled by a `SlotAction`: the Slot API lets a
callback read and overwrite the current item (via `get` or `get_mut`) and
then perform at most one structural edit, which consumes the cursor; the
engines are instrumented with a visit trace (the position and the item
shown to the callback at each invocation) so that visiting claims can be
stated.
-/

namespace Editer

variable {α : Type} {σ : Type} {ε : Type}

/-- The sequence contract's `insert` (lib.rs `List::insert`): inserts the
items, in order, at `index`, shifting successors right. -/
def insertAt (l : List α) (index : Nat) (items : List α) : List α :=
  l.take index ++ items ++ l.drop index

/-- The sequence contract's `remove` (lib.rs `List::remove`): removes the
item at `index`, shifting successors left. -/
def removeAt (l : List α) (index : Nat) : List α :=
  l.eraseIdx index

/-- A write through `List::index_mut`: overwrites the item at `index`. -/
def writeAt (l : List α) (index : Nat) (item : α) : List α :=
  l.set index item

/-- The default `List::replace` of lib.rs: if `items` is non-empty, write
its first element in place at `index` and insert the rest at `index + 1`;
if `items` is empty, remove the item at `index`. -/
def replaceAt (l : List α) (index : Nat) : List α → List α
  | [] => removeAt l index
  | item :: rest => insertAt (writeAt l index item) (index + 1) rest

/-- slot.rs `Slot`: the list being edited, the bound index, and the stride
cell the engine reads back after the callback returns. -/
structure Slot (α : Type) where
  list : List α
  index : Nat
  stride : Nat
  deriving Repr, DecidableEq

/-- slot.rs `Slot::new`. -/
def Slot.new (list : List α) (index : Nat) (stride : Nat) : Slot α :=
  ⟨list, index, stride⟩

/-- slot.rs `Slot::get`, which forwards to `List::index`. The out-of-bounds
panic branch is modelled as `none`. -/
def Slot.get (s : Slot α) : Option α :=
  s.list[s.index]?

/-- A write through slot.rs `Slot::get_mut` (or `DerefMut`): overwrites the
item at the bound index. -/
def Slot.write (s : Slot α) (item : α) : Slot α :=
  { s with list := writeAt s.list s.index item }

/-- slot.rs `Slot::insert_before`: sets the stride cell to
`items.len() + 1`, then inserts the items at the bound index. -/
def Slot.insert_before (s : Slot α) (items : List α) : Slot α :=
  { s with stride := items.length + 1, list := insertAt s.list s.index items }

/-- slot.rs `Slot::insert_after`: sets the stride cell to
`items.len() + 1`, then inserts the items at the bound index plus one. -/
def Slot.insert_after (s : Slot α) (items : List α) : Slot α :=
  { s with stride := items.length + 1, list := insertAt s.list (s.index + 1) items }

/-- slot.rs `Slot::replace`: sets the stride cell to `items.len()`, then
calls `List::replace` at the bound index. -/
def Slot.replace (s : Slot α) (items : List α) : Slot α :=
  { s with stride := items.length, list := replaceAt s.list s.index items }

/-- slot.rs `Slot::remove`: removes the item at the bound index, then sets
the stride cell to `0`. -/
def Slot.remove (s : Slot α) : Slot α :=
  { s with list := removeAt s.list s.index, stride := 0 }

/-- The structural edits a callback may perform on a cursor: none, or
exactly one of the four consuming edit methods. -/
inductive StructEdit (α : Type) where
  | none : StructEdit α
  | insert_before (items : List α) : StructEdit α
  | insert_after (items : List α) : StructEdit α
  | replace (items : List α) : StructEdit α
  | remove : StructEdit α
  deriving Repr, DecidableEq

/-- The net effect of one callback invocation on its slot: an optional
write of the current item (via `get_mut`, which may happen any number of
times with only the last surviving) followed by at most one structural
edit, which consumes the cursor, so nothing can follow it. -/
structure SlotAction (α : Type) where
  write : Option α
  edit : StructEdit α
  deriving Repr, DecidableEq

/-- A callback invocation that reads at most: no write, no structural
edit. -/
def SlotAction.noop : SlotAction α :=
  ⟨Option.none, StructEdit.none⟩

/-- Applies the optional write of a callback invocation to a slot. -/
def applyWrite (s : Slot α) : Option α → Slot α
  | Option.none => s
  | Option.some item => s.write item

/-- Applies the structural edit of a callback invocation to a slot. -/
def applyStructEdit (s : Slot α) : StructEdit α → Slot α
  | StructEdit.none => s
  | StructEdit.insert_before items => s.insert_before items
  | StructEdit.insert_after items => s.insert_after items
  | StructEdit.replace items => s.replace items
  | StructEdit.remove => s.remove

/-- Applies one whole callback invocation to a slot: the write first (all
reads and writes precede the structural edit, which consumes the slot),
then the structural edit. -/
def applyAction (s : Slot α) (a : SlotAction α) : Slot α :=
  applyStructEdit (applyWrite s a.write) a.edit

/-- The segment of the list that one callback invocation leaves in place
of the visited item, given the item `cur` under the cursor: the engine's
position counter jumps over exactly this segment. -/
def StructEdit.seg (e : StructEdit α) (cur : α) : List α :=
  match e with
  | StructEdit.none => [cur]
  | StructEdit.insert_before items => items ++ [cur]
  | StructEdit.insert_after items => cur :: items
  | StructEdit.replace items => items
  | StructEdit.remove => []

/-- The segment left in place of the visited item by a whole invocation:
the written value (if any) takes the place of the current item. -/
def SlotAction.seg (a : SlotAction α) (cur : α) : List α :=
  a.edit.seg (a.write.getD cur)

/-- The outcome of a run of the `edit` engine: the final list, the final
value of the position counter, the callback's final captured state, and
the instrumented trace of visits (position, item shown to the callback). -/
structure EditResult (σ α : Type) where
  list : List α
  index : Nat
  state : σ
  visits : List (Nat × α)
  deriving Repr, DecidableEq

/-- The loop of lib.rs `edit`, started at position `i`: while the position
is below the live length, build a slot with the stride cell defaulted to
`1`, run the callback, and advance the position by the stride read back.
The callback is modelled as a state-threading function from the item under
the cursor to the invocation's `SlotAction`. -/
def editGo (cb : σ → α → SlotAction α × σ) (st : σ) (l : List α) (i : Nat) :
    EditResult σ α :=
  if h : i < l.length then
    let cur := l[i]
    let p := cb st cur
    let s := applyAction (Slot.new l i 1) p.1
    let r := editGo cb p.2 s.list (i + s.stride)
    { r with visits := (i, cur) :: r.visits }
  else
    ⟨l, i, st, []⟩
termination_by l.length - i
decreasing_by
  obtain ⟨w, e⟩ := p.1
  cases e with
  | none =>
      rcases w with _ | v <;> simp [applyAction, applyWrite, applyStructEdit, Slot.insert_before,
        Slot.insert_after, Slot.replace, Slot.remove, Slot.write, Slot.new,
        insertAt, removeAt, writeAt, replaceAt, List.length_eraseIdx, h] <;> omega
  | insert_before items =>
      rcases w with _ | v <;> simp [applyAction, applyWrite, applyStructEdit, Slot.insert_before,
        Slot.insert_after, Slot.replace, Slot.remove, Slot.write, Slot.new,
        insertAt, removeAt, writeAt, replaceAt, List.length_eraseIdx, h] <;> omega
  | insert_after items =>
      rcases w with _ | v <;> simp [applyAction, applyWrite, applyStructEdit, Slot.insert_before,
        Slot.insert_after, Slot.replace, Slot.remove, Slot.write, Slot.new,
        insertAt, removeAt, writeAt, replaceAt, List.length_eraseIdx, h] <;> omega
  | replace items =>
      cases items <;> rcases w with _ | v <;> simp [applyAction, applyWrite, applyStructEdit, Slot.insert_before,
        Slot.insert_after, Slot.replace, Slot.remove, Slot.write, Slot.new,
        insertAt, removeAt, writeAt, replaceAt, List.length_eraseIdx, h] <;> omega
  | remove =>
      rcases w with _ | v <;> simp [applyAction, applyWrite, applyStructEdit, Slot.insert_before,
        Slot.insert_after, Slot.replace, Slot.remove, Slot.write, Slot.new,
        insertAt, removeAt, writeAt, replaceAt, List.length_eraseIdx, h] <;> omega

/-- lib.rs `edit`: runs the loop from position `0`. -/
def edit (l : List α) (cb : σ → α → SlotAction α × σ) (st : σ) :
    EditResult σ α :=
  editGo cb st l 0

/-- The outcome of a run of the `try_edit` engine: as for `edit`, plus the
first error returned by the callback, if any. -/
structure TryEditResult (σ ε α : Type) where
  list : List α
  index : Nat
  state : σ
  visits : List (Nat × α)
  error : Option ε
  deriving Repr, DecidableEq

/-- The loop of lib.rs `try_edit`, started at position `i`: identical to
`edit` except that the callback additionally returns an optional error;
the question-mark operator returns it to the caller at once, after the
invocation's edits are applied but before the position is advanced. -/
def tryEditGo (cb : σ → α → (SlotAction α × Option ε) × σ) (st : σ)
    (l : List α) (i : Nat) : TryEditResult σ ε α :=
  if h : i < l.length then
    let cur := l[i]
    let p := cb st cur
    let s := applyAction (Slot.new l i 1) p.1.1
    match p.1.2 with
    | Option.some e => ⟨s.list, i, p.2, [(i, cur)], Option.some e⟩
    | Option.none =>
      let r := tryEditGo cb p.2 s.list (i + s.stride)
      { r with visits := (i, cur) :: r.visits }
  else
    ⟨l, i, st, [], Option.none⟩
termination_by l.length - i
decreasing_by
  obtain ⟨w, e⟩ := p.1.1
  cases e with
  | none =>
      rcases w with _ | v <;> simp [applyAction, applyWrite, applyStructEdit, Slot.insert_before,
        Slot.insert_after, Slot.replace, Slot.remove, Slot.write, Slot.new,
        insertAt, removeAt, writeAt, replaceAt, List.length_eraseIdx, h] <;> omega
  | insert_before items =>
      rcases w with _ | v <;> simp [applyAction, applyWrite, applyStructEdit, Slot.insert_before,
        Slot.insert_after, Slot.replace, Slot.remove, Slot.write, Slot.new,
        insertAt, removeAt, writeAt, replaceAt, List.length_eraseIdx, h] <;> omega
  | insert_after items =>
      rcases w with _ | v <;> simp [applyAction, applyWrite, applyStructEdit, Slot.insert_before,
        Slot.insert_after, Slot.replace, Slot.remove, Slot.write, Slot.new,
        insertAt, removeAt, writeAt, replaceAt, List.length_eraseIdx, h] <;> omega
  | replace items =>
      cases items <;> rcases w with _ | v <;> simp [applyAction, applyWrite, applyStructEdit, Slot.insert_before,
        Slot.insert_after, Slot.replace, Slot.remove, Slot.write, Slot.new,
        insertAt, removeAt, writeAt, replaceAt, List.length_eraseIdx, h] <;> omega
  | remove =>
      rcases w with _ | v <;> simp [applyAction, applyWrite, applyStructEdit, Slot.insert_before,
        Slot.insert_after, Slot.replace, Slot.remove, Slot.write, Slot.new,
        insertAt, removeAt, writeAt, replaceAt, List.length_eraseIdx, h] <;> omega

/-- lib.rs `try_edit`: runs the fallible loop from position `0`. -/
def try_edit (l : List α) (cb : σ → α → (SlotAction α × Option ε) × σ)
    (st : σ) : TryEditResult σ ε α :=
  tryEditGo cb st l 0

/-- The infallible callback corresponding to a fallible callback that
never returns an error. -/
def dropError (cb : σ → α → (SlotAction α × Option ε) × σ) :
    σ → α → SlotAction α × σ :=
  fun st a => ((cb st a).1.1, (cb st a).2)

/-- Structural model of one walk over the pending suffix of the list,
starting at absolute position `i`: processes the pending items one at a
time, accumulating the segments each invocation leaves behind. Proved
below to agree with `editGo`, it makes the walk's bookkeeping explicit. -/
def walkModel (cb : σ → α → SlotAction α × σ) (st : σ) (i : Nat) :
    List α → EditResult σ α
  | [] => ⟨[], i, st, []⟩
  | cur :: rest =>
    let p := cb st cur
    let seg := SlotAction.seg p.1 cur
    let r := walkModel cb p.2 (i + seg.length) rest
    ⟨seg ++ r.list, r.index, r.state, (i, cur) :: r.visits⟩

/-- Structural model of one fallible walk over the pending suffix,
proved below to agree with `tryEditGo`. -/
def tryWalkModel (cb : σ → α → (SlotAction α × Option ε) × σ) (st : σ)
    (i : Nat) : List α → TryEditResult σ ε α
  | [] => ⟨[], i, st, [], Option.none⟩
  | cur :: rest =>
    let p := cb st cur
    let seg := SlotAction.seg p.1.1 cur
    match p.1.2 with
    | Option.some e => ⟨seg ++ rest, i, p.2, [(i, cur)], Option.some e⟩
    | Option.none =>
      let r := tryWalkModel cb p.2 (i + seg.length) rest
      ⟨seg ++ r.list, r.index, r.state, (i, cur) :: r.visits, r.error⟩

/-- Bounds-checked `List::insert`: fails (models the panic of the backing
container) unless the insertion index is at most the live length. -/
def insertAtChecked (l : List α) (index : Nat) (items : List α) :
    Option (List α) :=
  if index ≤ l.length then Option.some (insertAt l index items)
  else Option.none

/-- Bounds-checked `List::remove`. -/
def removeAtChecked (l : List α) (index : Nat) : Option (List α) :=
  if index < l.length then Option.some (removeAt l index)
  else Option.none

/-- Bounds-checked write through `List::index_mut`. -/
def writeAtChecked (l : List α) (index : Nat) (item : α) :
    Option (List α) :=
  if index < l.length then Option.some (writeAt l index item)
  else Option.none

/-- Bounds-checked default `List::replace`: each primitive it is built
from performs its own check. -/
def replaceAtChecked (l : List α) (index : Nat) : List α → Option (List α)
  | [] => removeAtChecked l index
  | item :: rest =>
    match writeAtChecked l index item with
    | Option.none => Option.none
    | Option.some l' => insertAtChecked l' (index + 1) rest

/-- Bounds-checked write through the slot. -/
def Slot.write_checked (s : Slot α) (item : α) : Option (Slot α) :=
  (writeAtChecked s.list s.index item).map fun l' => { s with list := l' }

/-- Bounds-checked `Slot::insert_before`. -/
def Slot.insert_before_checked (s : Slot α) (items : List α) :
    Option (Slot α) :=
  (insertAtChecked s.list s.index items).map fun l' =>
    { s with stride := items.length + 1, list := l' }

/-- Bounds-checked `Slot::insert_after`. -/
def Slot.insert_after_checked (s : Slot α) (items : List α) :
    Option (Slot α) :=
  (insertAtChecked s.list (s.index + 1) items).map fun l' =>
    { s with stride := items.length + 1, list := l' }

/-- Bounds-checked `Slot::replace`. -/
def Slot.replace_checked (s : Slot α) (items : List α) : Option (Slot α) :=
  (replaceAtChecked s.list s.index items).map fun l' =>
    { s with stride := items.length, list := l' }

/-- Bounds-checked `Slot::remove`. -/
def Slot.remove_checked (s : Slot α) : Option (Slot α) :=
  (removeAtChecked s.list s.index).map fun l' =>
    { s with list := l', stride := 0 }

/-- Bounds-checked application of the optional write of an invocation. -/
def applyWriteChecked (s : Slot α) : Option α → Option (Slot α)
  | Option.none => Option.some s
  | Option.some item => s.write_checked item

/-- Bounds-checked application of the structural edit of an invocation. -/
def applyStructEditChecked (s : Slot α) : StructEdit α → Option (Slot α)
  | StructEdit.none => Option.some s
  | StructEdit.insert_before items => s.insert_before_checked items
  | StructEdit.insert_after items => s.insert_after_checked items
  | StructEdit.replace items => s.replace_checked items
  | StructEdit.remove => s.remove_checked

/-- Bounds-checked application of one whole callback invocation. -/
def applyActionChecked (s : Slot α) (a : SlotAction α) : Option (Slot α) :=
  match applyWriteChecked s a.write with
  | Option.none => Option.none
  | Option.some s' => applyStructEditChecked s' a.edit

/-- The `edit` loop with every container access bounds-checked, driven by
explicit fuel: returns `none` if any access is out of bounds (the panic
branch) or the fuel runs out. -/
def editGoChecked (cb : σ → α → SlotAction α × σ) :
    Nat → σ → List α → Nat → Option (EditResult σ α)
  | 0, st, l, i =>
    if i < l.length then Option.none else Option.some ⟨l, i, st, []⟩
  | fuel + 1, st, l, i =>
    if i < l.length then
      ((Slot.new l i 1).get).bind fun cur =>
        let p := cb st cur
        (applyActionChecked (Slot.new l i 1) p.1).bind fun s =>
          (editGoChecked cb fuel p.2 s.list (i + s.stride)).map fun r =>
            { r with visits := (i, cur) :: r.visits }
    else Option.some ⟨l, i, st, []⟩

/-- The `try_edit` loop with every container access bounds-checked. -/
def tryEditGoChecked (cb : σ → α → (SlotAction α × Option ε) × σ) :
    Nat → σ → List α → Nat → Option (TryEditResult σ ε α)
  | 0, st, l, i =>
    if i < l.length then Option.none
    else Option.some ⟨l, i, st, [], Option.none⟩
  | fuel + 1, st, l, i =>
    if i < l.length then
      ((Slot.new l i 1).get).bind fun cur =>
        let p := cb st cur
        (applyActionChecked (Slot.new l i 1) p.1.1).bind fun s =>
          match p.1.2 with
          | Option.some e =>
            Option.some ⟨s.list, i, p.2, [(i, cur)], Option.some e⟩
          | Option.none =>
            (tryEditGoChecked cb fuel p.2 s.list (i + s.stride)).map fun r =>
              { r with visits := (i, cur) :: r.visits }
    else Option.some ⟨l, i, st, [], Option.none⟩

/-- A stateless callback built from a per-item action, as used by the
element-wise claims. -/
def elementwise (f : α → SlotAction α) : Unit → α → SlotAction α × Unit :=
  fun _ a => (f a, ())

/-- The callback that removes exactly the items satisfying `pred`. -/
def removeWhere (pred : α → Bool) : α → SlotAction α :=
  fun a => if pred a then ⟨Option.none, StructEdit.remove⟩ else SlotAction.noop

/-- The fallible callback of the `try_edit` doc test: removes items whose
value is below `4` and fails with a message at value `4`. -/
def removeBelowFourCb : Unit → Nat → (SlotAction Nat × Option String) × Unit :=
  fun _ a =>
    if a == 4 then ((SlotAction.noop, Option.some "Whoops!"), ())
    else ((⟨Option.none, StructEdit.remove⟩, Option.none), ())

theorem applyWrite_index (s : Slot α) (w : Option α) :
    (applyWrite s w).index = s.index := by
  cases w <;> rfl

theorem applyWrite_stride (s : Slot α) (w : Option α) :
    (applyWrite s w).stride = s.stride := by
  cases w <;> rfl

theorem applyStructEdit_index (s : Slot α) (e : StructEdit α) :
    (applyStructEdit s e).index = s.index := by
  cases e <;> rfl

theorem applyAction_index (s : Slot α) (a : SlotAction α) :
    (applyAction s a).index = s.index := by
  unfold applyAction
  rw [applyStructEdit_index, applyWrite_index]

theorem applyAction_stride (l : List α) (i : Nat) (a : SlotAction α)
    (cur : α) :
    (applyAction (Slot.new l i 1) a).stride = (a.seg cur).length := by
  obtain ⟨w, e⟩ := a
  cases e <;> cases w <;>
    simp [applyAction, applyWrite, applyStructEdit, SlotAction.seg,
      StructEdit.seg, Slot.insert_before, Slot.insert_after, Slot.replace,
      Slot.remove, Slot.write, Slot.new]

theorem applyStructEdit_list_seg (pre suf : List α) (cur : α) (str : Nat)
    (e : StructEdit α) :
    (applyStructEdit (Slot.new (pre ++ cur :: suf) pre.length str) e).list
      = pre ++ e.seg cur ++ suf := by
  have hcons : pre ++ cur :: suf = (pre ++ [cur]) ++ suf := by simp
  have hlen : (pre ++ [cur]).length = pre.length + 1 := by simp
  cases e with
  | none => simp [applyStructEdit, StructEdit.seg, Slot.new]
  | insert_before items =>
    simp only [applyStructEdit, Slot.insert_before, Slot.new, insertAt,
      StructEdit.seg]
    rw [List.take_left' rfl, List.drop_left' rfl]
    simp
  | insert_after items =>
    simp only [applyStructEdit, Slot.insert_after, Slot.new, insertAt,
      StructEdit.seg]
    rw [hcons, List.take_left' hlen, List.drop_left' hlen]
    simp
  | replace items =>
    cases items with
    | nil =>
      simp only [applyStructEdit, Slot.replace, Slot.new, replaceAt,
        removeAt, StructEdit.seg, List.eraseIdx_eq_take_drop_succ]
      rw [List.take_left' rfl, hcons, List.drop_left' hlen]
      simp
    | cons item rest =>
      simp only [applyStructEdit, Slot.replace, Slot.new, replaceAt,
        insertAt, writeAt, StructEdit.seg]
      have hset : (pre ++ cur :: suf).set pre.length item
          = pre ++ item :: suf := by
        rw [List.set_eq_take_cons_drop item (by simp),
          List.take_left' rfl, hcons, List.drop_left' hlen]
      rw [hset, show pre ++ item :: suf = (pre ++ [item]) ++ suf by simp,
        List.take_left' (by simp), List.drop_left' (by simp)]
      simp
  | remove =>
    simp only [applyStructEdit, Slot.remove, Slot.new, removeAt,
      StructEdit.seg, List.eraseIdx_eq_take_drop_succ]
    rw [List.take_left' rfl, hcons, List.drop_left' hlen]
    simp

theorem applyAction_list_seg (pre suf : List α) (cur : α) (str : Nat)
    (a : SlotAction α) :
    (applyAction (Slot.new (pre ++ cur :: suf) pre.length str) a).list
      = pre ++ a.seg cur ++ suf := by
  obtain ⟨w, e⟩ := a
  cases w with
  | none =>
    simpa [applyAction, applyWrite, SlotAction.seg] using
      applyStructEdit_list_seg pre suf cur str e
  | some v =>
    have hw : applyWrite (Slot.new (pre ++ cur :: suf) pre.length str)
        (Option.some v) = Slot.new (pre ++ v :: suf) pre.length str := by
      simp only [applyWrite, Slot.write, Slot.new, writeAt]
      rw [List.set_eq_take_cons_drop v (by simp),
        List.take_left' rfl,
        show pre ++ cur :: suf = (pre ++ [cur]) ++ suf by simp,
        List.drop_left' (by simp)]
    simpa [applyAction, hw, SlotAction.seg] using
      applyStructEdit_list_seg pre suf v str e

theorem cons_decomp (l : List α) (i : Nat) (h : i < l.length) :
    l = l.take i ++ l[i] :: l.drop (i + 1) := by
  conv_lhs => rw [← List.take_append_drop i l]
  rw [List.drop_eq_getElem_cons h]

theorem applyAction_list (l : List α) (i : Nat) (h : i < l.length)
    (a : SlotAction α) :
    (applyAction (Slot.new l i 1) a).list
      = l.take i ++ a.seg l[i] ++ l.drop (i + 1) := by
  have hlen : (l.take i).length = i := by
    simp [Nat.min_eq_left (Nat.le_of_lt h)]
  have key := applyAction_list_seg (l.take i) (l.drop (i + 1)) (l[i]) 1 a
  rw [hlen, ← cons_decomp l i h] at key
  exact key

theorem applyAction_length (l : List α) (i : Nat) (h : i < l.length)
    (a : SlotAction α) :
    (applyAction (Slot.new l i 1) a).list.length + 1
      = l.length + (applyAction (Slot.new l i 1) a).stride := by
  rw [applyAction_list l i h a, applyAction_stride l i a (l[i])]
  simp
  omega

theorem getElem_boundary (pre rest : List α) (cur : α)
    (h : pre.length < (pre ++ cur :: rest).length) :
    (pre ++ cur :: rest)[pre.length] = cur := by
  simp [List.getElem_append_right]

theorem editGo_model (cb : σ → α → SlotAction α × σ) (suf : List α) :
    ∀ (pre : List α) (st : σ),
      editGo cb st (pre ++ suf) pre.length
        = { walkModel cb st pre.length suf with
            list := pre ++ (walkModel cb st pre.length suf).list } := by
  induction suf with
  | nil =>
    intro pre st
    rw [editGo]
    simp [walkModel]
  | cons cur rest ih =>
    intro pre st
    have hguard : pre.length < (pre ++ cur :: rest).length := by simp
    rw [editGo, dif_pos hguard]
    simp only [getElem_boundary pre rest cur hguard]
    have hlist := applyAction_list_seg pre rest cur 1 (cb st cur).1
    have hstr := applyAction_stride (pre ++ cur :: rest) pre.length
      (cb st cur).1 cur
    set s := applyAction (Slot.new (pre ++ cur :: rest) pre.length 1)
      (cb st cur).1 with hs
    set seg := SlotAction.seg (cb st cur).1 cur with hseg
    have hadv : pre.length + s.stride = (pre ++ seg).length := by
      rw [hstr]; simp
    rw [hlist, hadv, show pre ++ seg ++ rest = (pre ++ seg) ++ rest by simp,
      ih (pre ++ seg) (cb st cur).2]
    show EditResult.mk _ _ _ _ = _
    conv_rhs => rw [walkModel]
    simp only [← hseg]
    have hlen2 : (pre ++ seg).length = pre.length + seg.length := by simp
    rw [hlen2]
    simp

theorem tryEditGo_model (cb : σ → α → (SlotAction α × Option ε) × σ)
    (suf : List α) :
    ∀ (pre : List α) (st : σ),
      tryEditGo cb st (pre ++ suf) pre.length
        = { tryWalkModel cb st pre.length suf with
            list := pre ++ (tryWalkModel cb st pre.length suf).list } := by
  induction suf with
  | nil =>
    intro pre st
    rw [tryEditGo]
    simp [tryWalkModel]
  | cons cur rest ih =>
    intro pre st
    have hguard : pre.length < (pre ++ cur :: rest).length := by simp
    rw [tryEditGo, dif_pos hguard]
    simp only [getElem_boundary pre rest cur hguard]
    have hlist := applyAction_list_seg pre rest cur 1 (cb st cur).1.1
    have hstr := applyAction_stride (pre ++ cur :: rest) pre.length
      (cb st cur).1.1 cur
    set s := applyAction (Slot.new (pre ++ cur :: rest) pre.length 1)
      (cb st cur).1.1 with hs
    set seg := SlotAction.seg (cb st cur).1.1 cur with hseg
    cases herr : (cb st cur).1.2 with
    | some e =>
      conv_rhs => rw [tryWalkModel]
      simp only [← hseg, herr]
      rw [hlist]
      simp
    | none =>
      have hadv : pre.length + s.stride = (pre ++ seg).length := by
        rw [hstr]; simp
      rw [hlist, hadv,
        show pre ++ seg ++ rest = (pre ++ seg) ++ rest by simp,
        ih (pre ++ seg) (cb st cur).2]
      show TryEditResult.mk _ _ _ _ _ = _
      conv_rhs => rw [tryWalkModel]
      simp only [← hseg, herr]
      have hlen2 : (pre ++ seg).length = pre.length + seg.length := by simp
      rw [hlen2]
      simp

theorem edit_eq_walkModel (l : List α) (cb : σ → α → SlotAction α × σ)
    (st : σ) :
    edit l cb st = walkModel cb st 0 l := by
  have h := editGo_model cb l [] st
  simpa [edit] using h

theorem try_edit_eq_tryWalkModel (l : List α)
    (cb : σ → α → (SlotAction α × Option ε) × σ) (st : σ) :
    try_edit l cb st = tryWalkModel cb st 0 l := by
  have h := tryEditGo_model cb l [] st
  simpa [try_edit] using h

theorem walkModel_visits_snd (cb : σ → α → SlotAction α × σ)
    (suf : List α) :
    ∀ (i : Nat) (st : σ),
      ((walkModel cb st i suf).visits).map Prod.snd = suf := by
  induction suf with
  | nil => intro i st; rfl
  | cons cur rest ih => intro i st; simp [walkModel, ih]

theorem walkModel_index (cb : σ → α → SlotAction α × σ) (suf : List α) :
    ∀ (i : Nat) (st : σ),
      (walkModel cb st i suf).index
        = i + (walkModel cb st i suf).list.length := by
  induction suf with
  | nil => intro i st; simp [walkModel]
  | cons cur rest ih =>
    intro i st
    simp only [walkModel, List.length_append]
    rw [ih]
    omega

theorem walkModel_noop (f : σ → α → σ) (suf : List α) :
    ∀ (i : Nat) (st : σ),
      walkModel (fun st a => (SlotAction.noop, f st a)) st i suf
        = ⟨suf, i + suf.length, suf.foldl f st, List.enumFrom i suf⟩ := by
  induction suf with
  | nil => intro i st; simp [walkModel]
  | cons cur rest ih =>
    intro i st
    rw [walkModel]
    rw [ih]
    simp [SlotAction.seg, SlotAction.noop, StructEdit.seg,
      List.enumFrom_cons]
    omega

theorem walkModel_elementwise (f : α → SlotAction α) (suf : List α) :
    ∀ (i : Nat),
      (walkModel (elementwise f) () i suf).list
        = suf.flatMap fun a => (f a).seg a := by
  induction suf with
  | nil => intro i; rfl
  | cons cur rest ih => intro i; simp [walkModel, elementwise, ih]

theorem tryWalkModel_no_error (cb : σ → α → (SlotAction α × Option ε) × σ)
    (hne : ∀ st a, ((cb st a).1).2 = Option.none) (suf : List α) :
    ∀ (i : Nat) (st : σ),
      tryWalkModel cb st i suf
        = ⟨(walkModel (dropError cb) st i suf).list,
           (walkModel (dropError cb) st i suf).index,
           (walkModel (dropError cb) st i suf).state,
           (walkModel (dropError cb) st i suf).visits, Option.none⟩ := by
  induction suf with
  | nil => intro i st; rfl
  | cons cur rest ih =>
    intro i st
    rw [tryWalkModel, walkModel]
    simp only [hne st cur, ih, dropError]

theorem tryWalkModel_visits_le (cb : σ → α → (SlotAction α × Option ε) × σ)
    (suf : List α) :
    ∀ (i : Nat) (st : σ),
      ((tryWalkModel cb st i suf).visits).length ≤ suf.length := by
  induction suf with
  | nil => intro i st; simp [tryWalkModel]
  | cons cur rest ih =>
    intro i st
    rw [tryWalkModel]
    cases herr : ((cb st cur).1).2 with
    | some e => simp
    | none =>
      simp only [List.length_cons]
      exact Nat.succ_le_succ (ih _ _)

theorem flatMap_removeWhere (pred : α → Bool) (l : List α) :
    (l.flatMap fun a => ((removeWhere pred) a).seg a)
      = l.filter fun a => !pred a := by
  induction l with
  | nil => rfl
  | cons a as ih =>
    rw [List.flatMap_cons, ih, List.filter_cons]
    by_cases hp : pred a <;>
      simp [removeWhere, SlotAction.seg, StructEdit.seg, SlotAction.noop,
        hp]

theorem applyWriteChecked_eq (l : List α) (i str : Nat) (h : i < l.length)
    (w : Option α) :
    applyWriteChecked (Slot.new l i str) w
      = Option.some (applyWrite (Slot.new l i str) w) := by
  cases w with
  | none => rfl
  | some v =>
    simp [applyWriteChecked, Slot.write_checked, writeAtChecked, Slot.new,
      h, applyWrite, Slot.write]

theorem applyStructEditChecked_eq (s : Slot α)
    (hs : s.index < s.list.length) (e : StructEdit α) :
    applyStructEditChecked s e = Option.some (applyStructEdit s e) := by
  cases e with
  | none => rfl
  | insert_before items =>
    simp [applyStructEditChecked, Slot.insert_before_checked,
      insertAtChecked, Nat.le_of_lt hs, applyStructEdit, Slot.insert_before]
  | insert_after items =>
    simp [applyStructEditChecked, Slot.insert_after_checked, insertAtChecked,
      Nat.succ_le_of_lt hs, applyStructEdit, Slot.insert_after]
  | replace items =>
    cases items with
    | nil =>
      simp [applyStructEditChecked, Slot.replace_checked, replaceAtChecked,
        removeAtChecked, hs, applyStructEdit, Slot.replace, replaceAt]
    | cons item rest =>
      simp [applyStructEditChecked, Slot.replace_checked, replaceAtChecked,
        writeAtChecked, hs, insertAtChecked, writeAt, Nat.succ_le_of_lt hs,
        applyStructEdit, Slot.replace, replaceAt, insertAt]
  | remove =>
    simp [applyStructEditChecked, Slot.remove_checked, removeAtChecked, hs,
      applyStructEdit, Slot.remove]

theorem applyActionChecked_eq (l : List α) (i : Nat) (h : i < l.length)
    (a : SlotAction α) :
    applyActionChecked (Slot.new l i 1) a
      = Option.some (applyAction (Slot.new l i 1) a) := by
  obtain ⟨w, e⟩ := a
  show (match applyWriteChecked (Slot.new l i 1) w with
    | Option.none => Option.none
    | Option.some s' => applyStructEditChecked s' e) = _
  rw [applyWriteChecked_eq l i 1 h w]
  have hidx : (applyWrite (Slot.new l i 1) w).index = i :=
    applyWrite_index (Slot.new l i 1) w
  have hlen : (applyWrite (Slot.new l i 1) w).list.length = l.length := by
    cases w <;> simp [applyWrite, Slot.write, Slot.new, writeAt]
  show applyStructEditChecked _ e = _
  rw [applyStructEditChecked_eq _ (by rw [hidx, hlen]; exact h) e]
  rfl

theorem slot_get_in_bounds (l : List α) (i str : Nat) (h : i < l.length) :
    (Slot.new l i str).get = Option.some l[i] := by
  simp [Slot.get, Slot.new, List.getElem?_eq_getElem h]

theorem editGoChecked_eq (cb : σ → α → SlotAction α × σ) :
    ∀ (fuel : Nat) (l : List α) (i : Nat) (st : σ), l.length - i ≤ fuel →
      editGoChecked cb fuel st l i = Option.some (editGo cb st l i) := by
  intro fuel
  induction fuel with
  | zero =>
    intro l i st hf
    have hge : ¬ i < l.length := by omega
    rw [editGo, dif_neg hge]
    simp [editGoChecked, hge]
  | succ fuel ih =>
    intro l i st hf
    by_cases h : i < l.length
    · rw [editGo, dif_pos h]
      rw [editGoChecked, if_pos h, slot_get_in_bounds l i 1 h]
      simp only [Option.some_bind]
      rw [applyActionChecked_eq l i h]
      simp only [Option.some_bind]
      have hm := applyAction_length l i h (cb st l[i]).1
      rw [ih _ _ _ (by omega)]
      rfl
    · rw [editGo, dif_neg h]
      rw [editGoChecked, if_neg h]

theorem tryEditGoChecked_eq (cb : σ → α → (SlotAction α × Option ε) × σ) :
    ∀ (fuel : Nat) (l : List α) (i : Nat) (st : σ), l.length - i ≤ fuel →
      tryEditGoChecked cb fuel st l i
        = Option.some (tryEditGo cb st l i) := by
  intro fuel
  induction fuel with
  | zero =>
    intro l i st hf
    have hge : ¬ i < l.length := by omega
    rw [tryEditGo, dif_neg hge]
    simp [tryEditGoChecked, hge]
  | succ fuel ih =>
    intro l i st hf
    by_cases h : i < l.length
    · rw [tryEditGo, dif_pos h]
      rw [tryEditGoChecked, if_pos h, slot_get_in_bounds l i 1 h]
      simp only [Option.some_bind]
      rw [applyActionChecked_eq l i h]
      simp only [Option.some_bind]
      have hm := applyAction_length l i h (cb st l[i]).1.1
      cases herr : (cb st l[i]).1.2 with
      | some e => simp only [herr]
      | none =>
        simp only [herr]
        rw [ih _ _ _ (by omega)]
        rfl
    · rw [tryEditGo, dif_neg h]
      rw [tryEditGoChecked, if_neg h]

/-- Claim C1: for every list and every callback (each invocation performs
at most one structural edit, as the consuming cursor enforces), a walk by
`edit` shows the callback exactly the elements present at the start, in
order: every pre-existing element - in particular every one never removed
or replaced - is visited exactly once, and no element inserted during the
walk (by `insert_before`, `insert_after`, or the tail of a `replace`) is
ever visited. -/
theorem C1_walk_visits_exactly_the_original_elements (l : List α)
    (cb : σ → α → SlotAction α × σ) (st : σ) :
    ((edit l cb st).visits).map Prod.snd = l := by
  rw [edit_eq_walkModel]
  exact walkModel_visits_snd cb l 0 st

/-- Claim C2: after any single cursor operation on a slot whose stride
cell the engine initialised to 1, the stride read back is: n + 1 after
`insert_before` or `insert_after` with n items (n = 0 gives 1); n after
`replace` with n items; 0 after `remove`; and 1 when the invocation made
no structural edit (even if it wrote the item). -/
theorem C2_stride_reflects_the_edit (l : List α) (i : Nat)
    (items : List α) (w : Option α) :
    ((Slot.new l i 1).insert_before items).stride = items.length + 1
  ∧ ((Slot.new l i 1).insert_after items).stride = items.length + 1
  ∧ ((Slot.new l i 1).insert_before []).stride = 1
  ∧ ((Slot.new l i 1).insert_after []).stride = 1
  ∧ ((Slot.new l i 1).replace items).stride = items.length
  ∧ (Slot.new l i 1).remove.stride = 0
  ∧ (applyAction (Slot.new l i 1) ⟨w, StructEdit.none⟩).stride = 1 := by
  refine ⟨rfl, rfl, rfl, rfl, rfl, rfl, ?_⟩
  cases w <;> rfl

/-- Claim C3: running `edit` with a callback that removes exactly the
slots whose item satisfies `pred` leaves the list equal to the subsequence
of original elements not satisfying `pred`, in original order, with length
the count of such elements. -/
theorem C3_remove_where_filters (l : List α) (pred : α → Bool) :
    (edit l (elementwise (removeWhere pred)) ()).list
        = l.filter (fun a => !pred a)
  ∧ (edit l (elementwise (removeWhere pred)) ()).list.length
        = l.countP (fun a => !pred a) := by
  have hlist : (edit l (elementwise (removeWhere pred)) ()).list
      = l.filter (fun a => !pred a) := by
    rw [edit_eq_walkModel, walkModel_elementwise, flatMap_removeWhere]
  refine ⟨hlist, ?_⟩
  rw [hlist, List.countP_eq_length_filter]

/-- Claim C4: when the callback returns an error at the slot currently
visited, `try_edit` returns that error at once: the failing invocation's
own structural edit stays applied, the position counter is left at the
failing position, and no later position is visited (the walk's remaining
visit trace is the failing slot alone); edits of earlier invocations are
part of the list the failing step starts from and so also remain. In
particular, on [1, 2, 3, 4, 5] with a callback that removes items below 4
and fails at 4, the run returns the error and leaves [4, 5]. -/
theorem C4_try_edit_stops_at_first_error
    (cb : σ → α → (SlotAction α × Option ε) × σ) (st : σ) (l : List α)
    (i : Nat) (h : i < l.length) (e : ε)
    (herr : ((cb st l[i]).1).2 = Option.some e) :
    tryEditGo cb st l i
      = ⟨(applyAction (Slot.new l i 1) ((cb st l[i]).1).1).list, i,
          (cb st l[i]).2, [(i, l[i])], Option.some e⟩
  ∧ (try_edit [1, 2, 3, 4, 5] removeBelowFourCb ()).list = [4, 5]
  ∧ (try_edit [1, 2, 3, 4, 5] removeBelowFourCb ()).error
      = Option.some "Whoops!"
  ∧ (try_edit [1, 2, 3, 4, 5] removeBelowFourCb ()).index = 0 := by
  refine ⟨?_, ?_, ?_, ?_⟩
  · rw [tryEditGo, dif_pos h]
    simp only [herr]
  · rw [try_edit_eq_tryWalkModel]; rfl
  · rw [try_edit_eq_tryWalkModel]; rfl
  · rw [try_edit_eq_tryWalkModel]; rfl

/-- Witness for C4 at a concrete failing slot and the doc-test input. -/
theorem C4_try_edit_stops_at_first_error_witness :
    tryEditGo removeBelowFourCb () [4, 9] 0
      = ⟨[4, 9], 0, (), [(0, 4)], Option.some "Whoops!"⟩
  ∧ (try_edit [1, 2, 3, 4, 5] removeBelowFourCb ()).list = [4, 5]
  ∧ (try_edit [1, 2, 3, 4, 5] removeBelowFourCb ()).error
      = Option.some "Whoops!"
  ∧ (try_edit [1, 2, 3, 4, 5] removeBelowFourCb ()).index = 0 :=
  C4_try_edit_stops_at_first_error removeBelowFourCb () [4, 9] 0
    (by decide) "Whoops!" (by rfl)

/-- Claim C5: the default `List::replace` produces, for an in-bounds
index, the original list with the slot at `index` spliced out and the
items put in its place when `items` is non-empty (first item written in
place, the rest inserted in order from `index + 1`), and removes the item
at `index` when `items` is empty. -/
theorem C5_default_replace_splices (l : List α) (i : Nat)
    (h : i < l.length) (items : List α) :
    (items ≠ [] → replaceAt l i items = l.take i ++ items ++ l.drop (i + 1))
  ∧ replaceAt l i [] = removeAt l i
  ∧ removeAt l i = l.take i ++ l.drop (i + 1) := by
  refine ⟨?_, rfl, List.eraseIdx_eq_take_drop_succ l i⟩
  intro hne
  cases items with
  | nil => exact absurd rfl hne
  | cons item rest =>
    simp only [replaceAt, insertAt, writeAt]
    rw [List.set_eq_take_cons_drop item h]
    have hlen : (l.take i ++ [item]).length = i + 1 := by
      simp [Nat.min_eq_left (Nat.le_of_lt h)]
    rw [show l.take i ++ item :: l.drop (i + 1)
        = (l.take i ++ [item]) ++ l.drop (i + 1) by simp,
      List.take_left' hlen, List.drop_left' hlen]
    simp

/-- Witness for C5 on [1, 2, 3] at index 1. -/
theorem C5_default_replace_splices_witness :
    (([7, 8] : List Nat) ≠ [] →
        replaceAt [1, 2, 3] 1 [7, 8]
          = List.take 1 [1, 2, 3] ++ [7, 8] ++ List.drop 2 [1, 2, 3])
  ∧ replaceAt [1, 2, 3] 1 [] = removeAt [1, 2, 3] 1
  ∧ removeAt [1, 2, 3] 1 = List.take 1 [1, 2, 3] ++ List.drop 2 [1, 2, 3] :=
  C5_default_replace_splices [1, 2, 3] 1 (by decide) [7, 8]

/-- Claim C6: `replace` with an empty item collection is the same slot
operation as `remove`: on every slot both produce the identical slot state
(current item deleted, successors shifted left, stride cell 0); in
particular both, applied to the element equal to 3 in [1, 2, 3, 4, 5],
yield [1, 2, 4, 5]. -/
theorem C6_replace_empty_equals_remove :
    (∀ (β : Type) (s : Slot β), s.replace [] = s.remove)
  ∧ (edit [1, 2, 3, 4, 5]
      (elementwise fun a =>
        if a = 3 then ⟨Option.none, StructEdit.replace []⟩
        else SlotAction.noop) ()).list = [1, 2, 4, 5]
  ∧ (edit [1, 2, 3, 4, 5]
      (elementwise fun a =>
        if a = 3 then ⟨Option.none, StructEdit.remove⟩
        else SlotAction.noop) ()).list = [1, 2, 4, 5] := by
  refine ⟨fun β s => rfl, ?_, ?_⟩ <;> rw [edit_eq_walkModel] <;> rfl

/-- Claim C7: on a callback that never reports an error, `try_edit` is the
same state machine as `edit`: it returns no error and produces the same
final list, final position, final callback state, and the same visit
sequence as `edit` run with the corresponding infallible callback. -/
theorem C7_try_edit_refines_edit
    (cb : σ → α → (SlotAction α × Option ε) × σ)
    (hne : ∀ st a, ((cb st a).1).2 = Option.none) (l : List α) (st : σ) :
    try_edit l cb st
      = ⟨(edit l (dropError cb) st).list, (edit l (dropError cb) st).index,
          (edit l (dropError cb) st).state,
          (edit l (dropError cb) st).visits, Option.none⟩ := by
  rw [try_edit_eq_tryWalkModel, edit_eq_walkModel]
  exact tryWalkModel_no_error cb hne l 0 st

/-- Witness for C7: an error-free removing callback on [1, 2, 3]. -/
theorem C7_try_edit_refines_edit_witness :
    try_edit [1, 2, 3]
        (fun (_ : Unit) (_a : Nat) =>
          ((⟨Option.none, StructEdit.remove⟩, (Option.none : Option String)),
            ())) ()
      = ⟨(edit [1, 2, 3]
            (dropError fun (_ : Unit) (_a : Nat) =>
              ((⟨Option.none, StructEdit.remove⟩,
                  (Option.none : Option String)), ())) ()).list,
          (edit [1, 2, 3]
            (dropError fun (_ : Unit) (_a : Nat) =>
              ((⟨Option.none, StructEdit.remove⟩,
                  (Option.none : Option String)), ())) ()).index,
          (edit [1, 2, 3]
            (dropError fun (_ : Unit) (_a : Nat) =>
              ((⟨Option.none, StructEdit.remove⟩,
                  (Option.none : Option String)), ())) ()).state,
          (edit [1, 2, 3]
            (dropError fun (_ : Unit) (_a : Nat) =>
              ((⟨Option.none, StructEdit.remove⟩,
                  (Option.none : Option String)), ())) ()).visits,
          Option.none⟩ :=
  C7_try_edit_refines_edit _ (fun _st _a => rfl) [1, 2, 3] ()

/-- Claim C8: `edit` with a callback that makes no structural edit and no
write leaves the list unchanged and invokes the callback exactly once per
position 0 to length - 1, in increasing order (the captured state may
still evolve: it folds over the visited items). -/
theorem C8_noop_walk_is_identity (l : List α) (f : σ → α → σ) (st : σ) :
    (edit l (fun st a => (SlotAction.noop, f st a)) st).list = l
  ∧ (edit l (fun st a => (SlotAction.noop, f st a)) st).visits
      = List.enumFrom 0 l
  ∧ ((edit l (fun st a => (SlotAction.noop, f st a)) st).visits).map
      Prod.fst = List.range l.length
  ∧ ((edit l (fun st a => (SlotAction.noop, f st a)) st).visits).length
      = l.length := by
  have hm := walkModel_noop f l 0 st
  refine ⟨?_, ?_, ?_, ?_⟩ <;> rw [edit_eq_walkModel, hm]
  · simp [List.enumFrom_map_fst, List.range_eq_range']
  · simp

/-- Claim C9: both engines terminate because each loop iteration
decreases the live length minus the position by exactly one: one
invocation at an in-bounds position satisfies
new-length - (position + stride) = (old-length - position) - 1, `edit`
performs exactly one iteration per initial element, and the loop exits
precisely at the boundary position ≥ live length (the final position
equals the final length); `try_edit` performs at most that many
iterations. -/
theorem C9_walks_terminate (l : List α) (i : Nat) (h : i < l.length)
    (a : SlotAction α) (cb : σ → α → SlotAction α × σ)
    (cbf : σ → α → (SlotAction α × Option ε) × σ) (st : σ) :
    ((applyAction (Slot.new l i 1) a).list.length
        - (i + (applyAction (Slot.new l i 1) a).stride)
      = (l.length - i) - 1)
  ∧ ((edit l cb st).visits).length = l.length
  ∧ (edit l cb st).index = (edit l cb st).list.length
  ∧ ((try_edit l cbf st).visits).length ≤ l.length := by
  refine ⟨?_, ?_, ?_, ?_⟩
  · have hm := applyAction_length l i h a
    omega
  · have hsnd := walkModel_visits_snd cb l 0 st
    rw [edit_eq_walkModel]
    calc ((walkModel cb st 0 l).visits).length
        = (((walkModel cb st 0 l).visits).map Prod.snd).length := by simp
      _ = l.length := by rw [hsnd]
  · rw [edit_eq_walkModel]
    have := walkModel_index cb l 0 st
    omega
  · rw [try_edit_eq_tryWalkModel]
    exact tryWalkModel_visits_le cbf l 0 st

/-- Witness for C9 at a concrete slot, action and callbacks. -/
theorem C9_walks_terminate_witness :
    ((applyAction (Slot.new [10, 20] 0 1)
          ⟨Option.none, StructEdit.remove⟩).list.length
        - (0 + (applyAction (Slot.new [10, 20] 0 1)
            ⟨Option.none, StructEdit.remove⟩).stride)
      = (([10, 20] : List Nat).length - 0) - 1)
  ∧ ((edit [10, 20] (elementwise (removeWhere fun a => a == 10)) ()).visits).length
      = ([10, 20] : List Nat).length
  ∧ (edit [10, 20] (elementwise (removeWhere fun a => a == 10)) ()).index
      = (edit [10, 20] (elementwise (removeWhere fun a => a == 10)) ()).list.length
  ∧ ((try_edit [10, 20] removeBelowFourCb ()).visits).length
      ≤ ([10, 20] : List Nat).length :=
  C9_walks_terminate [10, 20] 0 (by decide) ⟨Option.none, StructEdit.remove⟩
    (elementwise (removeWhere fun a => a == 10)) removeBelowFourCb ()

/-- Claim C10: during any walk by `edit` or `try_edit`, every container
access is in bounds, so the panic branch is unreachable: a slot is only
built at a position below the live length, and there `get` succeeds and
every bounds-checked slot operation (write at the index, remove or replace
at the index, insert at an index at most the length, insert-after at
index + 1 at most the length) succeeds and agrees with the unchecked one;
consequently both fully-checked engines return the unchecked engines'
results rather than the panic marker. -/
theorem C10_every_access_in_bounds (l : List α) (i : Nat)
    (h : i < l.length) (a : SlotAction α) (cb : σ → α → SlotAction α × σ)
    (cbf : σ → α → (SlotAction α × Option ε) × σ) (st : σ) (fuel : Nat)
    (hfuel : l.length ≤ fuel) :
    (Slot.new l i 1).get = Option.some l[i]
  ∧ applyActionChecked (Slot.new l i 1) a
      = Option.some (applyAction (Slot.new l i 1) a)
  ∧ editGoChecked cb fuel st l 0 = Option.some (editGo cb st l 0)
  ∧ tryEditGoChecked cbf fuel st l 0
      = Option.some (tryEditGo cbf st l 0) := by
  refine ⟨slot_get_in_bounds l i 1 h, applyActionChecked_eq l i h a, ?_, ?_⟩
  · exact editGoChecked_eq cb fuel l 0 st (by omega)
  · exact tryEditGoChecked_eq cbf fuel l 0 st (by omega)

/-- Witness for C10 at a concrete slot, action and callbacks. -/
theorem C10_every_access_in_bounds_witness :
    (Slot.new [10, 20] 1 1).get = Option.some 20
  ∧ applyActionChecked (Slot.new [10, 20] 1 1)
        ⟨Option.none, StructEdit.insert_after [30]⟩
      = Option.some (applyAction (Slot.new [10, 20] 1 1)
          ⟨Option.none, StructEdit.insert_after [30]⟩)
  ∧ editGoChecked (elementwise (removeWhere fun a => a == 10)) 2 () [10, 20] 0
      = Option.some (editGo (elementwise (removeWhere fun a => a == 10)) ()
          [10, 20] 0)
  ∧ tryEditGoChecked removeBelowFourCb 2 () [10, 20] 0
      = Option.some (tryEditGo removeBelowFourCb () [10, 20] 0) := by
  have h := C10_every_access_in_bounds [10, 20] 1 (by decide)
    ⟨Option.none, StructEdit.insert_after [30]⟩
    (elementwise (removeWhere fun a => a == 10)) removeBelowFourCb () 2
    (by decide)
  simpa using h

/-- lib.rs doc test: inserting after the element 2 and before the element
3 during one walk neither skips nor revisits. -/
theorem docTest_insert_both_sides :
    (edit [1, 2, 3, 4, 5]
      (elementwise fun a =>
        if a = 2 then ⟨Option.none, StructEdit.insert_after [6, 7]⟩
        else if a = 3 then ⟨Option.none, StructEdit.insert_before [8, 9]⟩
        else SlotAction.noop) ()).list = [1, 2, 6, 7, 8, 9, 3, 4, 5] := by
  rw [edit_eq_walkModel]; rfl

/-- lib.rs doc test: overwriting the element 2 in place and replacing the
element 3 by three items. -/
theorem docTest_write_and_replace :
    (edit [1, 2, 3, 4, 5]
      (elementwise fun a =>
        if a = 2 then ⟨Option.some 6, StructEdit.none⟩
        else if a = 3 then ⟨Option.none, StructEdit.replace [7, 8, 9]⟩
        else SlotAction.noop) ()).list = [1, 6, 7, 8, 9, 4, 5] := by
  rw [edit_eq_walkModel]; rfl

/-- slot.rs doc test for `insert_before`. -/
theorem docTest_insert_before :
    (edit [1, 2, 3, 4, 5]
      (elementwise fun a =>
        if a = 3 then ⟨Option.none, StructEdit.insert_before [6, 7, 8]⟩
        else SlotAction.noop) ()).list = [1, 2, 6, 7, 8, 3, 4, 5] := by
  rw [edit_eq_walkModel]; rfl

/-- slot.rs doc test for `insert_after`. -/
theorem docTest_insert_after :
    (edit [1, 2, 3, 4, 5]
      (elementwise fun a =>
        if a = 3 then ⟨Option.none, StructEdit.insert_after [6, 7, 8]⟩
        else SlotAction.noop) ()).list = [1, 2, 3, 6, 7, 8, 4, 5] := by
  rw [edit_eq_walkModel]; rfl

/-- slot.rs doc test for `replace`. -/
theorem docTest_replace :
    (edit [1, 2, 3, 4, 5]
      (elementwise fun a =>
        if a = 3 then ⟨Option.none, StructEdit.replace [6, 7, 8]⟩
        else SlotAction.noop) ()).list = [1, 2, 6, 7, 8, 4, 5] := by
  rw [edit_eq_walkModel]; rfl

/-- slot.rs doc test for `replace_with`: every element `a` is replaced by
three consecutive values computed from it. -/
theorem docTest_replace_with :
    (edit [1, 2, 3, 4, 5]
      (elementwise fun a =>
        ⟨Option.none,
          StructEdit.replace [(a - 1) * 3 + 1, (a - 1) * 3 + 2,
            (a - 1) * 3 + 3]⟩) ()).list
      = [1, 2, 3, 4, 5, 6, 7, 8, 9, 10, 11, 12, 13, 14, 15] := by
  rw [edit_eq_walkModel]; rfl

/-- Spec section 8 example: inserting 6 after the element 2 and 7 before
the element 3 yields [1, 2, 6, 7, 3, 4, 5]. -/
theorem specTest_insertion_no_skip_no_revisit :
    (edit [1, 2, 3, 4, 5]
      (elementwise fun a =>
        if a = 2 then ⟨Option.none, StructEdit.insert_after [6]⟩
        else if a = 3 then ⟨Option.none, StructEdit.insert_before [7]⟩
        else SlotAction.noop) ()).list = [1, 2, 6, 7, 3, 4, 5] := by
  rw [edit_eq_walkModel]; rfl

end Editer
